import Mathlib

/-!
Shallow embedding of the HTTP load balancer in `balancer.py` (with the
upstream stub `backend.py` modelled only through its HTTP contract).

The balancer keeps a fixed list of backend descriptors (mutable health flag
and active/ok/fail counters) plus a shared round-robin cursor.  Selection
(`pick_backend_rr`, `pick_backend_sticky`), the proxy pipeline (`proxy`) and
the metrics endpoint (`metrics`) are translated directly from the source;
network effects are represented by an `UpstreamResult` parameter, and the
proxy additionally emits a trace of counter events so that ordering
properties (increment before forward, decrement before return) are visible.
-/

namespace LB

/-- Structured JSON values, for the bodies built by `web.json_response`. -/
inductive Json where
  | str (s : String)
  | int (n : Int)
  | bool (b : Bool)
  | arr (xs : List Json)
  | obj (fields : List (String × Json))
deriving Repr

/-- `True` exactly on `Json.arr` values. -/
def Json.isArr : Json → Bool
  | .arr _ => true
  | _ => false

/-- One backend descriptor, as in the `BACKENDS` dict literals:
`{"name": …, "url": …, "healthy": …, "weight": …, "active": 0, "ok": 0, "fail": 0}`. -/
structure Backend where
  name : String
  url : String
  healthy : Bool
  weight : Int
  active : Int
  ok : Int
  fail : Int
deriving Repr, DecidableEq

/-- The balancer's mutable globals: the backend list and `ROUND_ROBIN_INDEX`. -/
structure LBState where
  backends : List Backend
  rrIndex : Nat
deriving Repr, DecidableEq

/-- The configured `BACKENDS` list of `balancer.py`. -/
def BACKENDS : List Backend :=
  [ ⟨"s1", "http://127.0.0.1:8001", true, 1, 0, 0, 0⟩,
    ⟨"s2", "http://127.0.0.1:8002", true, 1, 0, 0, 0⟩ ]

/-- Initial global state: `BACKENDS` with `ROUND_ROBIN_INDEX = 0`. -/
def initState : LBState := ⟨BACKENDS, 0⟩

/-- `HOP_BY_HOP`: lower-case hop-by-hop header names that must not be forwarded. -/
def HOP_BY_HOP : List String :=
  [ "connection", "keep-alive", "proxy-authenticate", "proxy-authorization",
    "te", "trailers", "transfer-encoding", "upgrade" ]

/-- Configuration globals `STICKY_COOKIE` / `STICKY_TTL_SECONDS`
(`STICKY_COOKIE = None` disables stickiness). -/
structure Config where
  stickyCookie : Option String
  stickyTTL : Nat
deriving Repr, DecidableEq

/-- The values configured in the source: cookie `LB_NODE`, TTL 600 seconds. -/
def defaultConfig : Config := ⟨some "LB_NODE", 600⟩

/-- Python truthiness of an optional string: `None` and `""` are falsy. -/
def truthy : Option String → Bool
  | none => false
  | some s => s ≠ ""

/-- The backend stored at index `i` (callers only use in-range indices). -/
def backendAt (st : LBState) (i : Nat) : Backend :=
  st.backends.getD i ⟨"", "", false, 0, 0, 0, 0⟩

/-- Name of the backend at index `i`. -/
def nameAt (st : LBState) (i : Nat) : String := (backendAt st i).name

/-- Indices of the backends passing the `b["healthy"]` filter, in list order:
the embedding of `healthy = [b for b in BACKENDS if b["healthy"]]`, with list
positions standing for the dict references Python passes around. -/
def healthyIdxs (st : LBState) : List Nat :=
  (List.range st.backends.length).filter (fun i => (backendAt st i).healthy)

/-- In-place update of the backend at index `i` (mutation of the shared dict). -/
def modifyAt : List Backend → Nat → (Backend → Backend) → List Backend
  | [], _, _ => []
  | b :: bs, 0, f => f b :: bs
  | b :: bs, n + 1, f => b :: modifyAt bs n f

/-- State after mutating backend `i`'s fields with `f`. -/
def modifyBackend (st : LBState) (i : Nat) (f : Backend → Backend) : LBState :=
  { st with backends := modifyAt st.backends i f }

/-- `pick_backend_rr`: round-robin among healthy backends.  Returns the chosen
backend (as its index) and the updated state; `None` when no backend is
healthy.  Mirrors
`b = healthy[ROUND_ROBIN_INDEX % len(healthy)]; ROUND_ROBIN_INDEX += 1`. -/
def pick_backend_rr (st : LBState) : Option Nat × LBState :=
  if (healthyIdxs st).length = 0 then (none, st)
  else (some ((healthyIdxs st).getD (st.rrIndex % (healthyIdxs st).length) 0),
        { st with rrIndex := st.rrIndex + 1 })

/-- `pick_backend_sticky`: if the cookie value (truthy, per `if cookie_val:`)
names a healthy backend, use the first such backend; else fall back to RR. -/
def pick_backend_sticky (cookieVal : Option String) (st : LBState) :
    Option Nat × LBState :=
  if (healthyIdxs st).length = 0 then (none, st)
  else if truthy cookieVal then
    match (healthyIdxs st).find? (fun i => nameAt st i = cookieVal.getD "") with
    | some i => (some i, st)
    | none => pick_backend_rr st
  else pick_backend_rr st

/-! ### Headers -/

/-- Header collections, as association lists (a Python `dict` once keys are
unique; the proxy builds its forwarding dict by comprehension). -/
abbrev Headers := List (String × String)

/-- ASCII lower-casing of one character, as `str.lower` does on the ASCII
header names involved here. -/
def charLower (c : Char) : Char :=
  if 65 ≤ c.toNat ∧ c.toNat ≤ 90 then Char.ofNat (c.toNat + 32) else c

/-- `k.lower()` for the ASCII header names handled by the balancer. -/
def strLower (s : String) : String := ⟨s.data.map charLower⟩

/-- Exact-key lookup, `d.get(k)` on a `dict` (first binding wins; an alist
standing for a `dict` has unique keys). -/
def dictGet : Headers → String → Option String
  | [], _ => none
  | p :: hs, k => if p.1 = k then some p.2 else dictGet hs k

/-- Whether the key is bound, `k in d`. -/
def hasKey : Headers → String → Bool
  | [], _ => false
  | p :: hs, k => p.1 = k || hasKey hs k

/-- Exact-key update `d[k] = v` on a `dict`: replace the binding when the key
is present, append it otherwise. -/
def dictSet (hs : Headers) (k v : String) : Headers :=
  if hasKey hs k then hs.map (fun p => if p.1 = k then (k, v) else p)
  else hs ++ [(k, v)]

/-- Case-insensitive update, for `out.headers[k] = v` on aiohttp's
case-insensitive header multidict. -/
def dictSetCI (hs : Headers) (k v : String) : Headers :=
  hs.filter (fun p => !(strLower p.1 == strLower k)) ++ [(k, v)]

/-- The hop-by-hop filter
`{k: v for k, v in headers if k.lower() not in HOP_BY_HOP}`. -/
def stripHopByHop (hs : Headers) : Headers :=
  hs.filter (fun p => !(HOP_BY_HOP.contains (strLower p.1)))

/-- One inbound HTTP request as the proxy reads it: cookie jar, headers,
peer IP (already `"unknown"` when the transport has no peer), scheme,
method, path+query and body. -/
structure Request where
  cookies : List (String × String)
  headers : Headers
  clientIp : String
  scheme : String
  method : String
  pathQs : String
  body : String
deriving Repr, DecidableEq

/-- `request.cookies.get(name)`. -/
def cookiesGet (req : Request) (name : String) : Option String :=
  (req.cookies.find? (fun p => p.1 = name)).map Prod.snd

/-- Lines 75–80 of `balancer.py`: strip hop-by-hop headers, then
`headers["X-Forwarded-For"] = f"{xff}, {client_ip}" if xff else client_ip`
(Python truthiness: a missing or empty inbound value yields just the IP) and
`headers["X-Forwarded-Proto"] = request.scheme`. -/
def forwardHeaders (req : Request) : Headers :=
  let base := stripHopByHop req.headers
  let xff := dictGet base "X-Forwarded-For"
  let newXff := match xff with
    | some v => if v = "" then req.clientIp else v ++ ", " ++ req.clientIp
    | none => req.clientIp
  dictSet (dictSet base "X-Forwarded-For" newXff) "X-Forwarded-Proto" req.scheme

/-! ### The proxy pipeline -/

/-- Outcome of the single upstream forwarding attempt: a completed response
(any status), or a network-level failure (timeout / connection error, the
`except Exception` path). -/
inductive UpstreamResult where
  | success (status : Nat) (headers : Headers) (payload : String)
  | failure
deriving Repr, DecidableEq

/-- A `Set-Cookie` issued via `out.set_cookie(name, value, max_age, path, httponly)`. -/
structure SetCookie where
  name : String
  value : String
  maxAge : Nat
  path : String
  httponly : Bool
deriving Repr, DecidableEq

/-- What one handler returns to the client. -/
structure Response where
  status : Nat
  headers : Headers
  json : Option Json
  payload : Option String
  cookie : Option SetCookie
deriving Repr

/-- `web.json_response(j, status)`. -/
def jsonResponse (j : Json) (status : Nat) : Response :=
  ⟨status, [], some j, none, none⟩

/-- The JSON error bodies of the proxy. -/
def errorJson (msg : String) : Json := Json.obj [("error", Json.str msg)]

/-- Counter events on the shared registry, in program order, used to state
ordering and concurrency properties of the active counter. -/
inductive Ev where
  | incrActive (i : Nat)
  | decrActive (i : Nat)
  | forward (i : Nat)
  | recordOk (i : Nat)
  | recordFail (i : Nat)
deriving Repr, DecidableEq

/-- Result of one `proxy` invocation: the client-visible response, the new
global state, the backend that was selected (if any) and the event trace. -/
structure ProxyOut where
  resp : Response
  st : LBState
  sel : Option Nat
  trace : List Ev
deriving Repr

/-- Line 65: `cookie_choice = request.cookies.get(STICKY_COOKIE) if STICKY_COOKIE else None`. -/
def cookieChoiceOf (cfg : Config) (req : Request) : Option String :=
  if truthy cfg.stickyCookie then cookiesGet req (cfg.stickyCookie.getD "")
  else none

/-- Line 66: `backend = pick_backend_sticky(cookie_choice) if STICKY_COOKIE else pick_backend_rr()`. -/
def pickFor (cfg : Config) (st : LBState) (req : Request) : Option Nat × LBState :=
  if truthy cfg.stickyCookie then pick_backend_sticky (cookieChoiceOf cfg req) st
  else pick_backend_rr st

/-- `backend["active"] += 1`. -/
def incrActiveF (b : Backend) : Backend := { b with active := b.active + 1 }

/-- `backend["active"] -= 1` (the `finally` block). -/
def decrActiveF (b : Backend) : Backend := { b with active := b.active - 1 }

/-- `backend["ok"] += 1`. -/
def recordOkF (b : Backend) : Backend := { b with ok := b.ok + 1 }

/-- `backend["fail"] += 1`. -/
def recordFailF (b : Backend) : Backend := { b with fail := b.fail + 1 }

/-- Lines 86 and 97–98: strip hop-by-hop headers from the upstream response,
then set the two diagnostic headers on the outgoing response. -/
def respOutHeaders (respHeaders : Headers) (bname : String) (durMs : Nat) : Headers :=
  dictSetCI (dictSetCI (stripHopByHop respHeaders) "X-LB-Backend" bname)
    "X-LB-Duration-ms" (toString durMs)

/-- Lines 70–104: the proxy body once a backend `i` has been selected
(state `st1` is the state right after selection).  `active` is incremented
first; the `finally` block decrements it on both the success and the
exception path, before the response is returned. -/
def proxyForward (cfg : Config) (st1 : LBState) (cookieChoice : Option String)
    (i : Nat) (upstream : UpstreamResult) (durMs : Nat) : ProxyOut :=
  let st2 := modifyBackend st1 i incrActiveF
  match upstream with
  | .failure =>
      let st3 := modifyBackend st2 i recordFailF
      let st4 := modifyBackend st3 i decrActiveF
      ⟨jsonResponse (errorJson "upstream failure") 502, st4, some i,
        [.incrActive i, .forward i, .recordFail i, .decrActive i]⟩
  | .success status respHeaders payload =>
      let st3 := modifyBackend st2 i recordOkF
      let bname := nameAt st1 i
      let cookieOut :=
        if truthy cfg.stickyCookie ∧ cookieChoice ≠ some bname then
          some (⟨cfg.stickyCookie.getD "", bname, cfg.stickyTTL, "/", false⟩ : SetCookie)
        else none
      let st4 := modifyBackend st3 i decrActiveF
      ⟨⟨status, respOutHeaders respHeaders bname durMs, none, some payload, cookieOut⟩,
        st4, some i,
        [.incrActive i, .forward i, .recordOk i, .decrActive i]⟩

/-- The `proxy` handler (lines 61–104 of `balancer.py`).  `upstream` stands
for the outcome of the one `sess.request` call; `durMs` for the measured
duration. -/
def proxy (cfg : Config) (st : LBState) (req : Request)
    (upstream : UpstreamResult) (durMs : Nat) : ProxyOut :=
  match pickFor cfg st req with
  | (none, st1) =>
      ⟨jsonResponse (errorJson "no healthy backends") 503, st1, none, []⟩
  | (some i, st1) =>
      proxyForward cfg st1 (cookieChoiceOf cfg req) i upstream durMs

/-! ### Control surface -/

/-- The per-backend snapshot built by `metrics`: `b.items()` filtered to the
seven public keys, in the insertion order of the `BACKENDS` literals. -/
def jsonOfBackend (b : Backend) : Json :=
  Json.obj
    [ ("name", Json.str b.name), ("url", Json.str b.url),
      ("healthy", Json.bool b.healthy), ("weight", Json.int b.weight),
      ("active", Json.int b.active), ("ok", Json.int b.ok),
      ("fail", Json.int b.fail) ]

/-- The `/metrics` handler: a JSON object with the single key `"backends"`
holding the snapshot array; the state is returned untouched. -/
def metrics (st : LBState) : Response × LBState :=
  (jsonResponse (Json.obj [("backends", Json.arr (st.backends.map jsonOfBackend))]) 200,
   st)

/-- Keys of a JSON object (empty for non-objects). -/
def Json.keys : Json → List String
  | .obj fs => fs.map Prod.fst
  | _ => []

/-- Whether a sticky selection will be served directly from the cookie:
the cookie value is truthy and names a healthy backend. -/
def stickyHit (cv : Option String) (st : LBState) : Bool :=
  truthy cv && ((healthyIdxs st).find? (fun i => nameAt st i = cv.getD "")).isSome

/-- Field lookup in a JSON object. -/
def Json.getField (j : Json) (k : String) : Option Json :=
  match j with
  | .obj fs => (fs.find? (fun p => p.1 = k)).map Prod.snd
  | _ => none

/-- A registry state in which every backend is unhealthy, with nonzero
counters, used to instantiate theorems about the all-unhealthy case. -/
def stAllDown : LBState :=
  ⟨[ ⟨"s1", "http://127.0.0.1:8001", false, 1, 2, 3, 4⟩,
     ⟨"s2", "http://127.0.0.1:8002", false, 1, 0, 5, 1⟩ ], 7⟩

/-- A plain concrete request used to instantiate the proxy theorems. -/
def reqPlain : Request := ⟨[], [], "10.0.0.1", "http", "GET", "/", ""⟩

/-- An https-announcing inbound request arriving over plain http: its
`X-Forwarded-Proto` header is a non-hop-by-hop header that the proxy does
not copy verbatim. -/
def reqC6 : Request :=
  ⟨[], [("Connection", "close"), ("X-Forwarded-Proto", "https")],
   "1.2.3.4", "http", "GET", "/", ""⟩

/-- A request carrying an `X-Forwarded-For` header with an empty value,
which Python truthiness treats like an absent header. -/
def reqC7 : Request :=
  ⟨[], [("X-Forwarded-For", "")], "1.2.3.4", "http", "GET", "/", ""⟩

/-- A request carrying only the sticky cookie, for iterated sticky routing. -/
def reqWithCookie (cname cv : String) : Request :=
  ⟨[(cname, cv)], [], "10.0.0.1", "http", "GET", "/", ""⟩

/-- `n` consecutive round-robin selections, threading the shared state:
returns the list of picks and the final state. -/
def iterRR : LBState → Nat → List (Option Nat) × LBState
  | st, 0 => ([], st)
  | st, n + 1 =>
      ((pick_backend_rr st).1 :: (iterRR (pick_backend_rr st).2 n).1,
        (iterRR (pick_backend_rr st).2 n).2)

/-- Consecutive `proxy` invocations of the same request, one per upstream
outcome, threading the shared state: the list of selections and the final
state. -/
def iterProxy (cfg : Config) (req : Request) :
    LBState → List UpstreamResult → List (Option Nat) × LBState
  | st, [] => ([], st)
  | st, u :: us =>
      ((proxy cfg st req u 0).sel ::
          (iterProxy cfg req (proxy cfg st req u 0).st us).1,
        (iterProxy cfg req (proxy cfg st req u 0).st us).2)

/-- One scheduled counter step of one in-flight request: `(true, r)` is
request `r`'s `active += 1`, `(false, r)` its `active -= 1`. -/
abbrev SchedEv := Bool × Nat

/-- The active counter after a schedule of increment/decrement steps. -/
def activeFold (s : List SchedEv) : Int :=
  s.foldl (fun a e => if e.1 then a + 1 else a - 1) 0

/-- A schedule is an interleaving of `n` proxied requests against one
backend: every step belongs to some request below `n`, each request
increments exactly once and decrements exactly once, and — as guaranteed by
the `try`/`finally` of `proxy` — its increment is scheduled before its
decrement (every prefix containing the decrement contains the increment). -/
def WFSched (n : Nat) (s : List SchedEv) : Prop :=
  (∀ e ∈ s, e.2 < n) ∧
  (∀ r, r < n → s.count (true, r) = 1 ∧ s.count (false, r) = 1) ∧
  (∀ r, r < n → ∀ k, k ≤ s.length →
    (false, r) ∈ s.take k → (true, r) ∈ s.take k)

/-- `True` exactly on upstream-contact events. -/
def Ev.isForward : Ev → Bool
  | .forward _ => true
  | _ => false

/-! ### Basic lemmas about the state operations -/

theorem modifyAt_length (bs : List Backend) (i : Nat) (f : Backend → Backend) :
    (modifyAt bs i f).length = bs.length := by
  induction bs generalizing i with
  | nil => rfl
  | cons b bs ih =>
    cases i with
    | zero => rfl
    | succ n => simpa [modifyAt] using ih n

theorem getD_modifyAt_self (bs : List Backend) (i : Nat) (f : Backend → Backend)
    (d : Backend) (h : i < bs.length) :
    (modifyAt bs i f).getD i d = f (bs.getD i d) := by
  induction bs generalizing i with
  | nil => simp at h
  | cons b bs ih =>
    cases i with
    | zero => rfl
    | succ n => simpa [modifyAt] using ih n (by simpa using h)

theorem getD_modifyAt_ne (bs : List Backend) (i j : Nat) (f : Backend → Backend)
    (d : Backend) (h : j ≠ i) :
    (modifyAt bs i f).getD j d = bs.getD j d := by
  induction bs generalizing i j with
  | nil => rfl
  | cons b bs ih =>
    cases i with
    | zero =>
      cases j with
      | zero => exact absurd rfl h
      | succ m => rfl
    | succ n =>
      cases j with
      | zero => rfl
      | succ m => simpa [modifyAt] using ih n m (by omega)

theorem backends_length_modifyBackend (st : LBState) (i : Nat) (f : Backend → Backend) :
    (modifyBackend st i f).backends.length = st.backends.length :=
  modifyAt_length _ _ _

theorem backendAt_modifyBackend_self (st : LBState) (i : Nat) (f : Backend → Backend)
    (h : i < st.backends.length) :
    backendAt (modifyBackend st i f) i = f (backendAt st i) :=
  getD_modifyAt_self _ _ _ _ h

theorem backendAt_modifyBackend_ne (st : LBState) (i j : Nat) (f : Backend → Backend)
    (h : j ≠ i) :
    backendAt (modifyBackend st i f) j = backendAt st j :=
  getD_modifyAt_ne _ _ _ _ _ h

/-- A field update that does not touch `healthy` leaves the healthy index set
unchanged. -/
theorem healthyIdxs_modifyBackend (st : LBState) (i : Nat) (f : Backend → Backend)
    (hf : ∀ b, (f b).healthy = b.healthy) :
    healthyIdxs (modifyBackend st i f) = healthyIdxs st := by
  unfold healthyIdxs
  rw [backends_length_modifyBackend]
  apply List.filter_congr
  intro j _
  by_cases hji : j = i
  · subst hji
    by_cases hlt : j < st.backends.length
    · rw [backendAt_modifyBackend_self _ _ _ hlt, hf]
    · unfold backendAt modifyBackend
      rw [List.getD_eq_default, List.getD_eq_default]
      · omega
      · rw [modifyAt_length]; omega
  · rw [backendAt_modifyBackend_ne _ _ _ _ hji]

/-- A field update that does not touch `name` leaves every backend name
unchanged. -/
theorem nameAt_modifyBackend (st : LBState) (i j : Nat) (f : Backend → Backend)
    (hf : ∀ b, (f b).name = b.name) :
    nameAt (modifyBackend st i f) j = nameAt st j := by
  unfold nameAt
  by_cases hji : j = i
  · subst hji
    by_cases hlt : j < st.backends.length
    · rw [backendAt_modifyBackend_self _ _ _ hlt, hf]
    · unfold backendAt modifyBackend
      rw [List.getD_eq_default, List.getD_eq_default]
      · omega
      · rw [modifyAt_length]; omega
  · rw [backendAt_modifyBackend_ne _ _ _ _ hji]

theorem healthyIdxs_eq_nil (st : LBState)
    (h : ∀ b ∈ st.backends, b.healthy = false) : healthyIdxs st = [] := by
  unfold healthyIdxs
  rw [List.filter_eq_nil_iff]
  intro i hi
  rw [List.mem_range] at hi
  have hmem : backendAt st i ∈ st.backends := by
    unfold backendAt
    rw [List.getD_eq_getElem?_getD, List.getElem?_eq_getElem hi]
    exact List.getElem_mem _
  simp [h _ hmem]

/-- Selection never changes the backend list (only the cursor may move). -/
theorem pick_backend_rr_backends (st : LBState) :
    (pick_backend_rr st).2.backends = st.backends := by
  unfold pick_backend_rr
  split <;> rfl

theorem pick_backend_sticky_backends (cv : Option String) (st : LBState) :
    (pick_backend_sticky cv st).2.backends = st.backends := by
  unfold pick_backend_sticky
  split
  · rfl
  · split
    · split
      · rfl
      · exact pick_backend_rr_backends st
    · exact pick_backend_rr_backends st

/-- A sticky selection whose cookie value is truthy and matches a healthy
backend returns that backend with the state untouched. -/
theorem pick_backend_sticky_hit (cv : Option String) (st : LBState) (i : Nat)
    (htr : truthy cv = true)
    (hfind : (healthyIdxs st).find? (fun j => nameAt st j = cv.getD "") = some i) :
    pick_backend_sticky cv st = (some i, st) := by
  have hne : ¬ (healthyIdxs st).length = 0 := by
    intro h0
    rw [List.length_eq_zero] at h0
    rw [h0] at hfind
    simp at hfind
  unfold pick_backend_sticky
  rw [if_neg hne, if_pos htr, hfind]

/-- With no healthy backend, selection fails in both modes, without touching
the state. -/
theorem pickFor_no_healthy (cfg : Config) (st : LBState) (req : Request)
    (hnil : healthyIdxs st = []) : pickFor cfg st req = (none, st) := by
  unfold pickFor pick_backend_sticky pick_backend_rr
  simp [hnil]

/-! ### C2: all backends unhealthy means 503, no upstream contact, no mutation -/

/-- **C2.** If no backend is healthy, selection yields no backend and the
proxy replies 503 with body `{"error": "no healthy backends"}`, contacts no
upstream (empty event trace, no relayed payload) and leaves the whole state
— in particular every backend's `active`/`ok`/`fail` counters — unchanged. -/
theorem claim_C2 (cfg : Config) (st : LBState) (req : Request)
    (upstream : UpstreamResult) (durMs : Nat)
    (h : ∀ b ∈ st.backends, b.healthy = false) :
    (proxy cfg st req upstream durMs).sel = none ∧
    (proxy cfg st req upstream durMs).resp.status = 503 ∧
    (proxy cfg st req upstream durMs).resp.json =
      some (errorJson "no healthy backends") ∧
    (proxy cfg st req upstream durMs).resp.payload = none ∧
    (proxy cfg st req upstream durMs).st = st ∧
    (proxy cfg st req upstream durMs).trace = [] := by
  have hnil : healthyIdxs st = [] := healthyIdxs_eq_nil st h
  simp [proxy, pickFor_no_healthy cfg st req hnil, jsonResponse]

/-- Witness for C2 at a concrete all-unhealthy state. -/
theorem claim_C2_witness :
    (∀ b ∈ stAllDown.backends, b.healthy = false) ∧
    (proxy defaultConfig stAllDown reqPlain .failure 0).resp.status = 503 ∧
    (proxy defaultConfig stAllDown reqPlain .failure 0).st = stAllDown :=
  ⟨by decide,
   (claim_C2 defaultConfig stAllDown reqPlain .failure 0 (by decide)).2.1,
   (claim_C2 defaultConfig stAllDown reqPlain .failure 0 (by decide)).2.2.2.2.1⟩

/-! ### C9: the metrics endpoint -/

/-- **C9, counterexample.** As stated the claim asks for a JSON *array* body;
the code wraps the array in an object `{"backends": [...]}` , so at the
initial state the `/metrics` body is not an array. -/
theorem claim_C9_counterexample :
    ((metrics initState).1.json.map Json.isArr) = some false := rfl

/-- **C9, amended.** Every `/metrics` request returns 200 with a JSON
*object* whose single key `"backends"` holds an array of one snapshot per
configured backend, each snapshot carrying exactly the fields
name, url, healthy, weight, active, ok, fail; the state is not mutated. -/
theorem claim_C9 (st : LBState) :
    (metrics st).1.status = 200 ∧
    (metrics st).2 = st ∧
    (metrics st).1.json =
      some (Json.obj [("backends", Json.arr (st.backends.map jsonOfBackend))]) ∧
    (∀ k, k < st.backends.length →
      (st.backends.map jsonOfBackend).getD k (Json.str "") =
        jsonOfBackend (backendAt st k)) ∧
    (∀ b ∈ st.backends, Json.keys (jsonOfBackend b) =
      ["name", "url", "healthy", "weight", "active", "ok", "fail"]) := by
  refine ⟨rfl, rfl, rfl, ?_, ?_⟩
  · intro k hk
    have hk' : k < (st.backends.map jsonOfBackend).length := by
      simpa using hk
    rw [List.getD_eq_getElem?_getD, List.getElem?_eq_getElem hk',
      List.getElem_map]
    unfold backendAt
    rw [List.getD_eq_getElem?_getD, List.getElem?_eq_getElem hk]
    rfl
  · intro b _
    rfl

/-- Witness for C9 at the initial state and its first backend. -/
theorem claim_C9_witness :
    (metrics initState).1.status = 200 ∧
    (metrics initState).2 = initState ∧
    Json.keys (jsonOfBackend ⟨"s1", "http://127.0.0.1:8001", true, 1, 0, 0, 0⟩) =
      ["name", "url", "healthy", "weight", "active", "ok", "fail"] :=
  ⟨(claim_C9 initState).1, (claim_C9 initState).2.1,
   (claim_C9 initState).2.2.2.2 _ (by decide)⟩

/-! ### C10: sticky hit leaves the cursor and the backends untouched -/

/-- **C10.** When the sticky cookie is truthy and names a healthy backend,
selection returns that backend with the state — cursor included — exactly
unchanged; sticky selection never mutates any backend field; and whenever
the cursor did move, the call was on the round-robin fallback path (the
cookie was falsy or matched no healthy backend). -/
theorem claim_C10 (cv : Option String) (st : LBState) :
    (∀ i, truthy cv = true →
      (healthyIdxs st).find? (fun j => nameAt st j = cv.getD "") = some i →
      pick_backend_sticky cv st = (some i, st)) ∧
    ((pick_backend_sticky cv st).2.backends = st.backends) ∧
    ((pick_backend_sticky cv st).2.rrIndex ≠ st.rrIndex →
      truthy cv = false ∨
      (healthyIdxs st).find? (fun j => nameAt st j = cv.getD "") = none) := by
  refine ⟨fun i htr hfind => pick_backend_sticky_hit cv st i htr hfind,
    pick_backend_sticky_backends cv st, ?_⟩
  intro hmove
  cases htr : truthy cv with
  | false => exact Or.inl rfl
  | true =>
    refine Or.inr ?_
    cases hfind : (healthyIdxs st).find? (fun j => nameAt st j = cv.getD "") with
    | none => rfl
    | some i =>
      rw [pick_backend_sticky_hit cv st i htr hfind] at hmove
      exact absurd rfl hmove

/-- Witness for C10: cookie `s2` against the initial state selects backend 1
without touching the state. -/
theorem claim_C10_witness :
    pick_backend_sticky (some "s2") initState = (some 1, initState) :=
  (claim_C10 (some "s2") initState).1 1 (by decide) (by decide)

/-! ### Dictionary lemmas for the header pipeline -/

theorem mem_of_mem_dictSet (hs : Headers) (k v : String) (p : String × String)
    (h : p ∈ dictSet hs k v) : p ∈ hs ∨ p.1 = k := by
  unfold dictSet at h
  split at h
  · rcases List.mem_map.mp h with ⟨q, hq, hqe⟩
    by_cases hqk : q.1 = k
    · right
      rw [← hqe]
      simp [hqk]
    · left
      rw [← hqe]
      simp only [if_neg hqk]
      exact hq
  · rcases List.mem_append.mp h with h1 | h1
    · exact Or.inl h1
    · right
      rw [List.mem_singleton.mp h1]

theorem mem_dictSet_of_ne (hs : Headers) (k' v' k v : String)
    (hmem : (k, v) ∈ hs) (hne : k ≠ k') : (k, v) ∈ dictSet hs k' v' := by
  unfold dictSet
  split
  · exact List.mem_map.mpr ⟨(k, v), hmem, by simp [hne]⟩
  · exact List.mem_append_left _ hmem

theorem mem_of_mem_dictSetCI (hs : Headers) (k v : String) (p : String × String)
    (h : p ∈ dictSetCI hs k v) : p ∈ hs ∨ p = (k, v) := by
  unfold dictSetCI at h
  rcases List.mem_append.mp h with h1 | h1
  · exact Or.inl (List.mem_filter.mp h1).1
  · exact Or.inr (List.mem_singleton.mp h1)

theorem mem_dictSetCI_of_ne (hs : Headers) (k' v' k v : String)
    (hmem : (k, v) ∈ hs) (hne : ¬ strLower k = strLower k') :
    (k, v) ∈ dictSetCI hs k' v' :=
  List.mem_append_left _ (List.mem_filter.mpr ⟨hmem, by simpa using hne⟩)

theorem mem_stripHopByHop (hs : Headers) (p : String × String) :
    p ∈ stripHopByHop hs ↔ p ∈ hs ∧ HOP_BY_HOP.contains (strLower p.1) = false := by
  unfold stripHopByHop
  rw [List.mem_filter]
  simp

theorem dictGet_cons_self (p : String × String) (hs : Headers) (k : String)
    (h : p.1 = k) : dictGet (p :: hs) k = some p.2 := by
  simp only [dictGet]
  rw [if_pos h]

theorem dictGet_cons_ne (p : String × String) (hs : Headers) (k : String)
    (h : ¬ p.1 = k) : dictGet (p :: hs) k = dictGet hs k := by
  simp only [dictGet]
  rw [if_neg h]

theorem dictGet_eq_none_of_not_hasKey (hs : Headers) (k : String)
    (h : hasKey hs k = false) : dictGet hs k = none := by
  induction hs with
  | nil => rfl
  | cons q hs ih =>
    rw [hasKey, Bool.or_eq_false_iff] at h
    rw [dictGet_cons_ne q hs k (by simpa using h.1), ih h.2]

/-- Lookup of key `k` after a `dict` overwrite of a present key `k`. -/
theorem dictGet_map_set_self (hs : Headers) (k v : String) (h : hasKey hs k = true) :
    dictGet (hs.map (fun p => if p.1 = k then (k, v) else p)) k = some v := by
  induction hs with
  | nil => simp [hasKey] at h
  | cons q hs ih =>
    rw [List.map_cons]
    by_cases hq : q.1 = k
    · rw [if_pos hq, dictGet_cons_self (k, v) _ k rfl]
    · have h' : hasKey hs k = true := by
        rw [hasKey, Bool.or_eq_true] at h
        rcases h with h | h
        · exact absurd (by simpa using h) hq
        · exact h
      rw [if_neg hq, dictGet_cons_ne q _ k hq, ih h']

/-- Lookup of a different key is unchanged by a `dict` overwrite of key `k`. -/
theorem dictGet_map_set_ne (hs : Headers) (k v k' : String) (hne : k' ≠ k) :
    dictGet (hs.map (fun p => if p.1 = k then (k, v) else p)) k' = dictGet hs k' := by
  induction hs with
  | nil => rfl
  | cons q hs ih =>
    rw [List.map_cons]
    by_cases hq : q.1 = k
    · rw [if_pos hq, dictGet_cons_ne (k, v) _ k' (fun he => hne he.symm),
        dictGet_cons_ne q hs k' (by rw [hq]; exact fun he => hne he.symm), ih]
    · by_cases hq' : q.1 = k'
      · rw [if_neg hq, dictGet_cons_self q _ k' hq', dictGet_cons_self q hs k' hq']
      · rw [if_neg hq, dictGet_cons_ne q _ k' hq', dictGet_cons_ne q hs k' hq', ih]

theorem dictGet_dictSet_self (hs : Headers) (k v : String) :
    dictGet (dictSet hs k v) k = some v := by
  unfold dictSet
  by_cases h : hasKey hs k
  · rw [if_pos h]
    exact dictGet_map_set_self hs k v h
  · rw [if_neg h]
    induction hs with
    | nil => exact dictGet_cons_self (k, v) [] k rfl
    | cons q hs ih =>
      rw [hasKey, Bool.or_eq_true] at h
      push_neg at h
      have hq : ¬ q.1 = k := by
        intro he
        exact h.1 (by simpa using he)
      rw [List.cons_append, dictGet_cons_ne q _ k hq]
      exact ih h.2

theorem dictGet_dictSet_ne (hs : Headers) (k v k' : String) (hne : k' ≠ k) :
    dictGet (dictSet hs k v) k' = dictGet hs k' := by
  unfold dictSet
  by_cases h : hasKey hs k
  · rw [if_pos h]
    exact dictGet_map_set_ne hs k v k' hne
  · rw [if_neg h]
    induction hs with
    | nil => exact dictGet_cons_ne (k, v) [] k' (fun he => hne he.symm)
    | cons q hs ih =>
      by_cases hq : q.1 = k'
      · rw [List.cons_append, dictGet_cons_self q _ k' hq, dictGet_cons_self q hs k' hq]
      · rw [List.cons_append, dictGet_cons_ne q _ k' hq, dictGet_cons_ne q hs k' hq]
        exact ih (by simp [hasKey] at h; simp [hasKey, h.2])

/-- Looking up a non-hop-by-hop key is unaffected by the hop-by-hop filter. -/
theorem dictGet_stripHopByHop (hs : Headers) (k : String)
    (hk : HOP_BY_HOP.contains (strLower k) = false) :
    dictGet (stripHopByHop hs) k = dictGet hs k := by
  unfold stripHopByHop
  induction hs with
  | nil => rfl
  | cons q hs ih =>
    rw [List.filter_cons]
    cases hdrop : HOP_BY_HOP.contains (strLower q.1) with
    | true =>
      have hq : ¬ q.1 = k := by
        intro he
        rw [he, hk] at hdrop
        exact Bool.false_ne_true hdrop
      rw [Bool.not_true, if_neg Bool.false_ne_true,
        dictGet_cons_ne q hs k hq, ih]
    | false =>
      rw [Bool.not_false, if_pos rfl]
      by_cases hq : q.1 = k
      · rw [dictGet_cons_self q _ k hq, dictGet_cons_self q hs k hq]
      · rw [dictGet_cons_ne q _ k hq, dictGet_cons_ne q hs k hq, ih]

/-! ### Selection and proxy structure lemmas -/

theorem mem_healthyIdxs_lt (st : LBState) (i : Nat) (h : i ∈ healthyIdxs st) :
    i < st.backends.length := by
  unfold healthyIdxs at h
  exact List.mem_range.mp (List.mem_of_mem_filter h)

theorem pick_backend_rr_sel_mem (st : LBState) (i : Nat)
    (h : (pick_backend_rr st).1 = some i) : i ∈ healthyIdxs st := by
  unfold pick_backend_rr at h
  split at h
  · exact absurd h (by simp)
  · rename_i hne
    have hlt : st.rrIndex % (healthyIdxs st).length < (healthyIdxs st).length :=
      Nat.mod_lt _ (Nat.pos_of_ne_zero hne)
    have := Option.some.inj h
    rw [← this, List.getD_eq_getElem?_getD, List.getElem?_eq_getElem hlt]
    exact List.getElem_mem _

theorem pick_backend_sticky_sel_mem (cv : Option String) (st : LBState) (i : Nat)
    (h : (pick_backend_sticky cv st).1 = some i) : i ∈ healthyIdxs st := by
  unfold pick_backend_sticky at h
  split at h
  · exact absurd h (by simp)
  · split at h
    · split at h
      · rename_i j hfind
        rw [Option.some.inj h] at hfind
        exact List.mem_of_find?_eq_some hfind
      · exact pick_backend_rr_sel_mem st i h
    · exact pick_backend_rr_sel_mem st i h

theorem pickFor_sel_mem (cfg : Config) (st : LBState) (req : Request) (i : Nat)
    (h : (pickFor cfg st req).1 = some i) : i ∈ healthyIdxs st := by
  unfold pickFor at h
  split at h
  · exact pick_backend_sticky_sel_mem _ st i h
  · exact pick_backend_rr_sel_mem st i h

theorem pickFor_backends (cfg : Config) (st : LBState) (req : Request) :
    (pickFor cfg st req).2.backends = st.backends := by
  unfold pickFor
  split
  · exact pick_backend_sticky_backends _ st
  · exact pick_backend_rr_backends st

theorem backendAt_congr (st1 st2 : LBState) (j : Nat)
    (h : st1.backends = st2.backends) : backendAt st1 j = backendAt st2 j := by
  unfold backendAt
  rw [h]

/-- Reading back backend `i` after the three counter mutations the proxy
performs on it. -/
theorem backendAt_chain3 (st1 : LBState) (i : Nat) (f g h' : Backend → Backend)
    (hlen : i < st1.backends.length) :
    backendAt (modifyBackend (modifyBackend (modifyBackend st1 i f) i g) i h') i =
      h' (g (f (backendAt st1 i))) := by
  have l1 : i < (modifyBackend st1 i f).backends.length := by
    rw [backends_length_modifyBackend]
    exact hlen
  have l2 : i < (modifyBackend (modifyBackend st1 i f) i g).backends.length := by
    rw [backends_length_modifyBackend]
    exact l1
  rw [backendAt_modifyBackend_self _ _ _ l2, backendAt_modifyBackend_self _ _ _ l1,
    backendAt_modifyBackend_self _ _ _ hlen]

/-- Other backends are untouched by the three counter mutations. -/
theorem backendAt_chain3_ne (st1 : LBState) (i j : Nat) (f g h' : Backend → Backend)
    (hne : j ≠ i) :
    backendAt (modifyBackend (modifyBackend (modifyBackend st1 i f) i g) i h') j =
      backendAt st1 j := by
  rw [backendAt_modifyBackend_ne _ _ _ _ hne, backendAt_modifyBackend_ne _ _ _ _ hne,
    backendAt_modifyBackend_ne _ _ _ _ hne]

/-- The proxy with a selected backend is `proxyForward` on the post-selection
state. -/
theorem proxy_eq_forward (cfg : Config) (st : LBState) (req : Request)
    (u : UpstreamResult) (d : Nat) (i : Nat) (st1 : LBState)
    (hp : pickFor cfg st req = (some i, st1)) :
    proxy cfg st req u d = proxyForward cfg st1 (cookieChoiceOf cfg req) i u d := by
  unfold proxy
  rw [hp]

/-- The selection reported by the proxy is the one `pickFor` made. -/
theorem proxy_sel_eq (cfg : Config) (st : LBState) (req : Request)
    (u : UpstreamResult) (d : Nat) :
    (proxy cfg st req u d).sel = (pickFor cfg st req).1 := by
  unfold proxy
  rcases hp : pickFor cfg st req with ⟨sel, st1⟩
  cases sel with
  | none => rfl
  | some i =>
    unfold proxyForward
    cases u <;> rfl

/-! ### C8: outcome counters and error surface -/

/-- **C8.** For every proxied request with a selected backend `i`: if the
upstream response completes, `i`'s `ok` counter is incremented by exactly one
whatever the status code, `fail` is untouched and the upstream status is
relayed; if forwarding fails at network level, `i`'s `fail` counter is
incremented by exactly one, `ok` is untouched and the client gets 502 with
body `{"error": "upstream failure"}`; in both cases the trace holds exactly
one upstream-contact event — no retry against this or another backend. -/
theorem claim_C8 (cfg : Config) (st : LBState) (req : Request)
    (u : UpstreamResult) (d : Nat) (i : Nat)
    (hsel : (proxy cfg st req u d).sel = some i) :
    (∀ s hs p, u = .success s hs p →
      (backendAt (proxy cfg st req u d).st i).ok = (backendAt st i).ok + 1 ∧
      (backendAt (proxy cfg st req u d).st i).fail = (backendAt st i).fail ∧
      (proxy cfg st req u d).resp.status = s) ∧
    (u = .failure →
      (backendAt (proxy cfg st req u d).st i).fail = (backendAt st i).fail + 1 ∧
      (backendAt (proxy cfg st req u d).st i).ok = (backendAt st i).ok ∧
      (proxy cfg st req u d).resp.status = 502 ∧
      (proxy cfg st req u d).resp.json = some (errorJson "upstream failure")) ∧
    (proxy cfg st req u d).trace.countP (fun e => Ev.isForward e) = 1 := by
  rw [proxy_sel_eq] at hsel
  rcases hp : pickFor cfg st req with ⟨sel, st1⟩
  have hsel1 : sel = some i := by rw [hp] at hsel; exact hsel
  subst hsel1
  have hmem : i ∈ healthyIdxs st := pickFor_sel_mem cfg st req i (by rw [hp])
  have hlen : i < st1.backends.length := by
    have hb : st1.backends = st.backends := by
      have := pickFor_backends cfg st req
      rw [hp] at this
      exact this
    rw [hb]
    exact mem_healthyIdxs_lt st i hmem
  have hAt : backendAt st1 i = backendAt st i := by
    apply backendAt_congr
    have := pickFor_backends cfg st req
    rw [hp] at this
    exact this
  rw [proxy_eq_forward cfg st req u d i st1 hp]
  refine ⟨?_, ?_, ?_⟩
  · rintro s hs p rfl
    unfold proxyForward
    refine ⟨?_, ?_, rfl⟩ <;>
      simp [backendAt_chain3 st1 i _ _ _ hlen, hAt, incrActiveF, recordOkF, decrActiveF]
  · rintro rfl
    unfold proxyForward
    refine ⟨?_, ?_, rfl, rfl⟩ <;>
      simp [backendAt_chain3 st1 i _ _ _ hlen, hAt, incrActiveF, recordFailF, decrActiveF]
  · unfold proxyForward
    cases u <;> simp [List.countP, List.countP.go, Ev.isForward]

/-- Witness for C8: a failing upstream against the fresh state bumps the
selected backend's fail counter and yields 502. -/
theorem claim_C8_witness :
    (backendAt (proxy defaultConfig initState reqPlain .failure 0).st 0).fail =
      (backendAt initState 0).fail + 1 ∧
    (proxy defaultConfig initState reqPlain .failure 0).resp.status = 502 :=
  ⟨((claim_C8 defaultConfig initState reqPlain .failure 0 0 (by decide)).2.1 rfl).1,
   ((claim_C8 defaultConfig initState reqPlain .failure 0 0 (by decide)).2.1 rfl).2.2.1⟩

/-! ### C3: round-robin fairness -/

theorem healthyIdxs_congr (st1 st2 : LBState) (h : st1.backends = st2.backends) :
    healthyIdxs st1 = healthyIdxs st2 := by
  simp only [healthyIdxs, backendAt]
  rw [h]

theorem nameAt_congr (st1 st2 : LBState) (j : Nat) (h : st1.backends = st2.backends) :
    nameAt st1 j = nameAt st2 j := by
  unfold nameAt
  rw [backendAt_congr st1 st2 j h]

theorem pick_backend_rr_of_ne (st : LBState)
    (hne : ¬ (healthyIdxs st).length = 0) :
    pick_backend_rr st =
      (some ((healthyIdxs st).getD (st.rrIndex % (healthyIdxs st).length) 0),
        ⟨st.backends, st.rrIndex + 1⟩) := by
  unfold pick_backend_rr
  rw [if_neg hne]


/-- Mapping cannot decrease the multiplicity of a value's image. -/
theorem count_le_count_map_opt (l : List Nat) (f : Nat -> Option Nat) (x : Nat) :
    l.count x <= (l.map f).count (f x) := by
  induction l with
  | nil => exact Nat.le_refl 0
  | cons a l ih =>
    rw [List.map_cons, List.count_cons, List.count_cons]
    by_cases ha : a = x
    · subst ha
      simp only [beq_self_eq_true]
      show List.count a l + 1 ≤ List.count (f a) (List.map f l) + 1
      exact Nat.add_le_add_right ih 1
    · have hax : (a == x) = false := by simpa using ha
      rw [hax]
      by_cases hfa : (f a == f x) = true
      · rw [hfa]
        show List.count x l + 0 ≤ List.count (f x) (List.map f l) + 1
        omega
      · rw [Bool.eq_false_iff.mpr hfa]
        show List.count x l + 0 ≤ List.count (f x) (List.map f l) + 0
        omega

/-- Any window of `N` consecutive cursor values hits residue `j` at least
`N / h` times. -/
theorem count_mod_ge (c h j : Nat) (hpos : 0 < h) (hj : j < h) :
    ∀ N : Nat, N / h ≤ ((List.range N).map (fun k => (c + k) % h)).count j := by
  intro N
  induction N using Nat.strong_induction_on with
  | _ N ih =>
    by_cases hlt : N < h
    · rw [Nat.div_eq_of_lt hlt]
      exact Nat.zero_le _
    · push_neg at hlt
      have hM : N - h + h = N := Nat.sub_add_cancel hlt
      have hsplit := List.range_add (N - h) h
      rw [hM] at hsplit
      rw [hsplit, List.map_append, List.count_append]
      have h1 := ih (N - h) (by omega)
      have h2 : 1 ≤ (((List.range h).map ((N - h) + ·)).map
          (fun k => (c + k) % h)).count j := by
        rw [List.map_map]
        have hxlt : (c + (N - h)) % h < h := Nat.mod_lt _ hpos
        have htlt : (j + h - (c + (N - h)) % h) % h < h := Nat.mod_lt _ hpos
        apply List.count_pos_iff.mpr
        apply List.mem_map.mpr
        refine ⟨(j + h - (c + (N - h)) % h) % h, List.mem_range.mpr htlt, ?_⟩
        show (c + ((N - h) + (j + h - (c + (N - h)) % h) % h)) % h = j
        have hassoc : c + ((N - h) + (j + h - (c + (N - h)) % h) % h) =
            (c + (N - h)) + (j + h - (c + (N - h)) % h) % h := by omega
        rw [hassoc, Nat.add_mod, Nat.mod_eq_of_lt htlt]
        rcases Nat.lt_or_ge (j + h - (c + (N - h)) % h) h with hcase | hcase
        · rw [Nat.mod_eq_of_lt hcase,
            show (c + (N - h)) % h + (j + h - (c + (N - h)) % h) = j + h by omega,
            Nat.add_mod_right, Nat.mod_eq_of_lt hj]
        · have hxj : (c + (N - h)) % h ≤ j := by omega
          have hsub : j - (c + (N - h)) % h < h := by omega
          rw [show j + h - (c + (N - h)) % h = (j - (c + (N - h)) % h) + h by omega,
            Nat.add_mod_right, Nat.mod_eq_of_lt hsub,
            show (c + (N - h)) % h + (j - (c + (N - h)) % h) = j by omega,
            Nat.mod_eq_of_lt hj]
      calc N / h = (N - h) / h + 1 := by
            conv_lhs => rw [← hM]
            rw [Nat.add_div_right _ hpos]
        _ ≤ _ := Nat.add_le_add h1 h2

/-- Each of `N` consecutive round-robin selections is the healthy backend at
`cursor mod healthyCount`, the cursor advancing once per call, ending at
`start + N`. -/
theorem iterRR_spec : ∀ (N : Nat) (st : LBState),
    ¬ (healthyIdxs st).length = 0 →
    (iterRR st N).1 = (List.range N).map (fun k =>
      some ((healthyIdxs st).getD
        ((st.rrIndex + k) % (healthyIdxs st).length) 0)) ∧
    (iterRR st N).2 = ⟨st.backends, st.rrIndex + N⟩ := by
  intro N
  induction N with
  | zero => exact fun st h => ⟨rfl, rfl⟩
  | succ N ih =>
    intro st h
    have hpick := pick_backend_rr_of_ne st h
    have hH : healthyIdxs (⟨st.backends, st.rrIndex + 1⟩ : LBState) =
        healthyIdxs st := healthyIdxs_congr _ st rfl
    have h' : ¬ (healthyIdxs (⟨st.backends, st.rrIndex + 1⟩ : LBState)).length = 0 := by
      rw [hH]
      exact h
    have hmain := ih ⟨st.backends, st.rrIndex + 1⟩ h'
    dsimp only at hmain
    unfold iterRR
    rw [hpick]
    dsimp only
    constructor
    · rw [hmain.1, hH, List.range_succ_eq_map, List.map_cons, List.map_map,
        Nat.add_zero]
      have htail : (List.range N).map (fun k =>
          some ((healthyIdxs st).getD
            ((st.rrIndex + 1 + k) % (healthyIdxs st).length) 0)) =
        (List.range N).map ((fun k => some ((healthyIdxs st).getD
            ((st.rrIndex + k) % (healthyIdxs st).length) 0)) ∘ Nat.succ) := by
        apply List.map_congr_left
        intro k _
        show some ((healthyIdxs st).getD
            ((st.rrIndex + 1 + k) % (healthyIdxs st).length) 0) =
          some ((healthyIdxs st).getD
            ((st.rrIndex + (k + 1)) % (healthyIdxs st).length) 0)
        rw [show st.rrIndex + 1 + k = st.rrIndex + (k + 1) by omega]
      rw [htail]
      simp only [Nat.add_zero]
    · rw [hmain.2]
      congr 1
      omega

/-- **C3.** With at least one healthy backend (health fixed: selection alone
never changes it), `N` consecutive round-robin selections return the healthy
backend at `cursor mod healthyCount`, advancing the shared cursor each call,
every selection is a healthy backend, and each healthy backend is selected
at least `⌊N / healthyCount⌋` times. -/
theorem claim_C3 (st : LBState) (N : Nat)
    (hne : ¬ (healthyIdxs st).length = 0) :
    ((iterRR st N).1 = (List.range N).map (fun k =>
      some ((healthyIdxs st).getD
        ((st.rrIndex + k) % (healthyIdxs st).length) 0))) ∧
    ((iterRR st N).2 = ⟨st.backends, st.rrIndex + N⟩) ∧
    (∀ k, k < N → ∃ b ∈ healthyIdxs st, (iterRR st N).1.getD k none = some b) ∧
    (∀ j, j < (healthyIdxs st).length →
      N / (healthyIdxs st).length ≤
        (iterRR st N).1.count (some ((healthyIdxs st).getD j 0))) := by
  have hpos : 0 < (healthyIdxs st).length := Nat.pos_of_ne_zero hne
  refine ⟨(iterRR_spec N st hne).1, (iterRR_spec N st hne).2, ?_, ?_⟩
  · intro k hk
    rw [(iterRR_spec N st hne).1]
    have hk' : k < ((List.range N).map (fun k =>
        some ((healthyIdxs st).getD
          ((st.rrIndex + k) % (healthyIdxs st).length) 0))).length := by
      simpa using hk
    refine ⟨(healthyIdxs st).getD
      ((st.rrIndex + k) % (healthyIdxs st).length) 0, ?_, ?_⟩
    · have hmod : (st.rrIndex + k) % (healthyIdxs st).length <
          (healthyIdxs st).length := Nat.mod_lt _ hpos
      rw [List.getD_eq_getElem?_getD, List.getElem?_eq_getElem hmod]
      exact List.getElem_mem _
    · rw [List.getD_eq_getElem?_getD, List.getElem?_eq_getElem hk',
        List.getElem_map, List.getElem_range]
      rfl
  · intro j hj
    rw [(iterRR_spec N st hne).1]
    have hsplit : (List.range N).map (fun k =>
        some ((healthyIdxs st).getD
          ((st.rrIndex + k) % (healthyIdxs st).length) 0)) =
      ((List.range N).map (fun k =>
        (st.rrIndex + k) % (healthyIdxs st).length)).map
          (fun m => some ((healthyIdxs st).getD m 0)) := by
      rw [List.map_map]
      rfl
    rw [hsplit]
    exact le_trans
      (count_mod_ge st.rrIndex (healthyIdxs st).length j hpos hj N)
      (count_le_count_map_opt
        ((List.range N).map (fun k =>
          (st.rrIndex + k) % (healthyIdxs st).length))
        (fun m => some ((healthyIdxs st).getD m 0)) j)

/-- Witness for C3: five selections against the fresh two-backend state pick
backend 0 at least `⌊5/2⌋ = 2` times, and the cursor ends at 5. -/
theorem claim_C3_witness :
    (iterRR initState 5).2 = ⟨initState.backends, initState.rrIndex + 5⟩ ∧
    5 / (healthyIdxs initState).length ≤
      (iterRR initState 5).1.count (some ((healthyIdxs initState).getD 0 0)) :=
  ⟨(claim_C3 initState 5 (by decide)).2.1,
   (claim_C3 initState 5 (by decide)).2.2.2 0 (by decide)⟩

/-! ### Proxy preservation lemmas and C4 -/

theorem find?_pred_congr (l : List Nat) (p q : Nat → Bool)
    (h : ∀ x ∈ l, p x = q x) : l.find? p = l.find? q := by
  induction l with
  | nil => rfl
  | cons x l ih =>
    rw [List.find?_cons, List.find?_cons, h x (List.mem_cons_self x l)]
    cases q x
    · exact ih (fun y hy => h y (List.mem_cons_of_mem x hy))
    · rfl

/-- The three per-request counter updates never touch `healthy` or `name`. -/
theorem healthyIdxs_chain3 (st1 : LBState) (i : Nat) (f g h' : Backend → Backend)
    (hf : ∀ b, (f b).healthy = b.healthy) (hg : ∀ b, (g b).healthy = b.healthy)
    (hh : ∀ b, (h' b).healthy = b.healthy) :
    healthyIdxs (modifyBackend (modifyBackend (modifyBackend st1 i f) i g) i h') =
      healthyIdxs st1 := by
  rw [healthyIdxs_modifyBackend _ _ _ hh, healthyIdxs_modifyBackend _ _ _ hg,
    healthyIdxs_modifyBackend _ _ _ hf]

theorem nameAt_chain3_all (st1 : LBState) (i j : Nat) (f g h' : Backend → Backend)
    (hf : ∀ b, (f b).name = b.name) (hg : ∀ b, (g b).name = b.name)
    (hh : ∀ b, (h' b).name = b.name) :
    nameAt (modifyBackend (modifyBackend (modifyBackend st1 i f) i g) i h') j =
      nameAt st1 j := by
  rw [nameAt_modifyBackend _ _ _ _ hh, nameAt_modifyBackend _ _ _ _ hg,
    nameAt_modifyBackend _ _ _ _ hf]

/-- One proxy invocation never changes which backends are healthy nor any
backend's name (it only mutates counters and possibly the cursor). -/
theorem proxy_preserves (cfg : Config) (st : LBState) (req : Request)
    (u : UpstreamResult) (d : Nat) :
    healthyIdxs (proxy cfg st req u d).st = healthyIdxs st ∧
    ∀ j, nameAt (proxy cfg st req u d).st j = nameAt st j := by
  rcases hp : pickFor cfg st req with ⟨sel, st1⟩
  have hb : st1.backends = st.backends := by
    have := pickFor_backends cfg st req
    rw [hp] at this
    exact this
  cases sel with
  | none =>
    have hout : (proxy cfg st req u d).st = st1 := by
      unfold proxy
      rw [hp]
    rw [hout]
    exact ⟨healthyIdxs_congr st1 st hb, fun j => nameAt_congr st1 st j hb⟩
  | some i =>
    rw [proxy_eq_forward cfg st req u d i st1 hp]
    cases u with
    | failure =>
      refine ⟨?_, fun j => ?_⟩
      · show healthyIdxs (modifyBackend (modifyBackend (modifyBackend st1 i
            incrActiveF) i recordFailF) i decrActiveF) = healthyIdxs st
        rw [healthyIdxs_chain3 st1 i incrActiveF recordFailF decrActiveF
          (fun b => rfl) (fun b => rfl) (fun b => rfl)]
        exact healthyIdxs_congr st1 st hb
      · show nameAt (modifyBackend (modifyBackend (modifyBackend st1 i
            incrActiveF) i recordFailF) i decrActiveF) j = nameAt st j
        rw [nameAt_chain3_all st1 i j incrActiveF recordFailF decrActiveF
          (fun b => rfl) (fun b => rfl) (fun b => rfl)]
        exact nameAt_congr st1 st j hb
    | success s hs p =>
      refine ⟨?_, fun j => ?_⟩
      · show healthyIdxs (modifyBackend (modifyBackend (modifyBackend st1 i
            incrActiveF) i recordOkF) i decrActiveF) = healthyIdxs st
        rw [healthyIdxs_chain3 st1 i incrActiveF recordOkF decrActiveF
          (fun b => rfl) (fun b => rfl) (fun b => rfl)]
        exact healthyIdxs_congr st1 st hb
      · show nameAt (modifyBackend (modifyBackend (modifyBackend st1 i
            incrActiveF) i recordOkF) i decrActiveF) j = nameAt st j
        rw [nameAt_chain3_all st1 i j incrActiveF recordOkF decrActiveF
          (fun b => rfl) (fun b => rfl) (fun b => rfl)]
        exact nameAt_congr st1 st j hb

/-- **C4.** In sticky mode, a cookie naming a healthy backend routes to that
backend directly, for every value of the round-robin cursor; and any number
of consecutive proxied requests presenting that cookie are all served by it
(counters move, but health and names do not, so the affinity keeps holding). -/
theorem claim_C4 (st : LBState) (cv : String) (i : Nat) (hcv : cv ≠ "")
    (hfind : (healthyIdxs st).find? (fun j => nameAt st j = cv) = some i) :
    (∀ c : Nat, pick_backend_sticky (some cv) ⟨st.backends, c⟩ =
      (some i, ⟨st.backends, c⟩)) ∧
    (∀ us : List UpstreamResult, ∀ sel ∈
      (iterProxy defaultConfig (reqWithCookie "LB_NODE" cv) st us).1,
      sel = some i) := by
  have htr : truthy (some cv) = true := by simpa [truthy] using hcv
  have hit : ∀ st' : LBState, healthyIdxs st' = healthyIdxs st →
      (∀ j, nameAt st' j = nameAt st j) →
      pick_backend_sticky (some cv) st' = (some i, st') := by
    intro st' h1 h2
    apply pick_backend_sticky_hit (some cv) st' i htr
    rw [h1, find?_pred_congr (healthyIdxs st) _ _ (fun x _ => by rw [h2 x])]
    exact hfind
  refine ⟨fun c => hit ⟨st.backends, c⟩ (healthyIdxs_congr _ st rfl)
    (fun j => nameAt_congr _ st j rfl), ?_⟩
  have key : ∀ us : List UpstreamResult, ∀ st' : LBState,
      healthyIdxs st' = healthyIdxs st → (∀ j, nameAt st' j = nameAt st j) →
      ∀ sel ∈ (iterProxy defaultConfig (reqWithCookie "LB_NODE" cv) st' us).1,
      sel = some i := by
    intro us
    induction us with
    | nil =>
      intro st' _ _ sel hmem
      simp [iterProxy] at hmem
    | cons u us ih =>
      intro st' h1 h2 sel hmem
      have hcc : cookieChoiceOf defaultConfig (reqWithCookie "LB_NODE" cv) =
          some cv := rfl
      have hpick : pickFor defaultConfig st' (reqWithCookie "LB_NODE" cv) =
          (some i, st') := by
        unfold pickFor
        rw [if_pos (by decide), hcc]
        exact hit st' h1 h2
      rcases List.mem_cons.mp hmem with hh | ht
      · rw [hh, proxy_sel_eq, hpick]
      · have hout := proxy_preserves defaultConfig st' (reqWithCookie "LB_NODE" cv) u 0
        exact ih (proxy defaultConfig st' (reqWithCookie "LB_NODE" cv) u 0).st
          (by rw [hout.1, h1]) (fun j => by rw [hout.2 j, h2 j]) sel ht
  exact fun us => key us st rfl (fun j => rfl)

/-- Witness for C4: cookie `s2` keeps routing to backend 1 whatever the
cursor, and across an actual proxied request. -/
theorem claim_C4_witness :
    pick_backend_sticky (some "s2") ⟨initState.backends, 99⟩ =
      (some 1, ⟨initState.backends, 99⟩) ∧
    (proxy defaultConfig initState (reqWithCookie "LB_NODE" "s2") .failure 0).sel =
      some 1 :=
  ⟨(claim_C4 initState "s2" 1 (by decide) (by decide)).1 99,
   (claim_C4 initState "s2" 1 (by decide) (by decide)).2 [.failure] _ (by decide)⟩

/-! ### C5: sticky-cookie issuance -/

/-- A sticky selection that cannot use the cookie (falsy value, or no healthy
backend of that name) is exactly a round-robin selection, provided some
backend is healthy. -/
theorem pick_backend_sticky_miss (cv : Option String) (st : LBState)
    (hne : ¬ (healthyIdxs st).length = 0)
    (hmiss : truthy cv = false ∨
      (healthyIdxs st).find? (fun j => nameAt st j = cv.getD "") = none) :
    pick_backend_sticky cv st = pick_backend_rr st := by
  unfold pick_backend_sticky
  rw [if_neg hne]
  rcases hmiss with hf | hf
  · rw [hf]
    simp
  · cases htr : truthy cv
    · simp
    · rw [if_pos rfl, hf]

theorem proxyForward_success_cookie (cfg : Config) (st1 : LBState)
    (cc : Option String) (i : Nat) (s : Nat) (hs : Headers) (p : String) (d : Nat) :
    (proxyForward cfg st1 cc i (.success s hs p) d).resp.cookie =
      (if truthy cfg.stickyCookie ∧ cc ≠ some (nameAt st1 i) then
        some ⟨cfg.stickyCookie.getD "", nameAt st1 i, cfg.stickyTTL, "/", false⟩
      else none) := rfl

theorem proxyForward_rrIndex (cfg : Config) (st1 : LBState) (cc : Option String)
    (i : Nat) (u : UpstreamResult) (d : Nat) :
    (proxyForward cfg st1 cc i u d).st.rrIndex = st1.rrIndex := by
  cases u <;> rfl

/-- **C5.** In sticky mode, on a successfully proxied request served by
backend `i`: when the presented affinity token (possibly absent) is not the
serving backend's name, selection went through the round-robin fallback
(cursor advanced, backend taken at `cursor mod healthyCount`) and the
response carries a fresh cookie naming the serving backend with the
configured TTL and path `/`; when the token is exactly the serving backend's
name, no cookie is set. -/
theorem claim_C5 (cfg : Config) (st : LBState) (req : Request) (s : Nat)
    (hs : Headers) (p : String) (d : Nat) (i : Nat) (cname : String)
    (hcfg : cfg.stickyCookie = some cname) (hcn : cname ≠ "")
    (hsel : (proxy cfg st req (.success s hs p) d).sel = some i) :
    (cookiesGet req cname ≠ some (nameAt st i) →
      (proxy cfg st req (.success s hs p) d).resp.cookie =
        some ⟨cname, nameAt st i, cfg.stickyTTL, "/", false⟩ ∧
      (proxy cfg st req (.success s hs p) d).st.rrIndex = st.rrIndex + 1 ∧
      i = (healthyIdxs st).getD (st.rrIndex % (healthyIdxs st).length) 0) ∧
    (cookiesGet req cname = some (nameAt st i) →
      (proxy cfg st req (.success s hs p) d).resp.cookie = none) := by
  have htr : truthy cfg.stickyCookie = true := by
    rw [hcfg]
    simpa [truthy] using hcn
  have hccho : cookieChoiceOf cfg req = cookiesGet req cname := by
    unfold cookieChoiceOf
    rw [if_pos htr, hcfg]
    rfl
  rw [proxy_sel_eq] at hsel
  rcases hp : pickFor cfg st req with ⟨sel, st1⟩
  have hsel1 : sel = some i := by rw [hp] at hsel; exact hsel
  subst hsel1
  have hb : st1.backends = st.backends := by
    have := pickFor_backends cfg st req
    rw [hp] at this
    exact this
  have hname : nameAt st1 i = nameAt st i := by
    unfold nameAt
    rw [backendAt_congr st1 st i hb]
  have hpick : pick_backend_sticky (cookiesGet req cname) st = (some i, st1) := by
    have := hp
    unfold pickFor at this
    rw [if_pos htr, hccho] at this
    exact this
  have hne : ¬ (healthyIdxs st).length = 0 := by
    intro h0
    unfold pick_backend_sticky at hpick
    rw [if_pos h0] at hpick
    exact Option.noConfusion (congrArg Prod.fst hpick)
  rw [proxy_eq_forward cfg st req (.success s hs p) d i st1 hp, hccho]
  constructor
  · intro hmis
    have hrr : pick_backend_rr st = (some i, st1) := by
      rcases hfind : (healthyIdxs st).find?
          (fun j => nameAt st j = (cookiesGet req cname).getD "") with _ | j
      · rw [← pick_backend_sticky_miss _ st hne (Or.inr hfind)]
        exact hpick
      · cases htc : truthy (cookiesGet req cname) with
        | false =>
          rw [← pick_backend_sticky_miss _ st hne (Or.inl htc)]
          exact hpick
        | true =>
          exfalso
          have hhit := pick_backend_sticky_hit (cookiesGet req cname) st j htc hfind
          rw [hhit] at hpick
          have hij : j = i := Option.some.inj (congrArg Prod.fst hpick)
          subst hij
          have hpred := List.find?_some hfind
          have hnm : nameAt st j = (cookiesGet req cname).getD "" := by
            simpa using hpred
          rcases hcc : cookiesGet req cname with _ | v
          · rw [hcc] at htc
            simp [truthy] at htc
          · apply hmis
            rw [hcc] at hnm
            rw [hcc, hnm]
            rfl
    rw [pick_backend_rr_of_ne st hne] at hrr
    have hi : some ((healthyIdxs st).getD (st.rrIndex % (healthyIdxs st).length) 0)
        = some i := congrArg Prod.fst hrr
    have hst1 : st1 = ⟨st.backends, st.rrIndex + 1⟩ := (congrArg Prod.snd hrr).symm
    refine ⟨?_, ?_, (Option.some.inj hi).symm⟩
    · rw [proxyForward_success_cookie,
        if_pos ⟨htr, by rw [hname]; exact hmis⟩, hname, hcfg]
      rfl
    · rw [proxyForward_rrIndex, hst1]
  · intro hmatch
    rw [proxyForward_success_cookie, if_neg]
    intro hcontra
    exact hcontra.2 (by rw [hname]; exact hmatch)

/-- Witness for C5: the first request without a cookie is served by `s1` via
round-robin and receives a fresh `LB_NODE=s1` cookie with TTL 600. -/
theorem claim_C5_witness :
    (proxy defaultConfig initState reqPlain (.success 200 [] "hi") 0).resp.cookie =
      some ⟨"LB_NODE", "s1", 600, "/", false⟩ ∧
    (proxy defaultConfig initState reqPlain (.success 200 [] "hi") 0).st.rrIndex =
      initState.rrIndex + 1 :=
  ⟨((claim_C5 defaultConfig initState reqPlain 200 [] "hi" 0 0 "LB_NODE" rfl
      (by decide) (by decide)).1 (by decide)).1,
   ((claim_C5 defaultConfig initState reqPlain 200 [] "hi" 0 0 "LB_NODE" rfl
      (by decide) (by decide)).1 (by decide)).2.1⟩

/-! ### C6: hop-by-hop stripping in both directions -/

/-- **C6, counterexample.** `reqC6` carries the non-hop-by-hop header
`X-Forwarded-Proto: https`, yet that header is not copied into the forwarded
set (line 80 overwrites it with the request scheme), refuting the claim's
final clause that all non-hop-by-hop headers are copied. -/
theorem claim_C6_counterexample :
    ("X-Forwarded-Proto", "https") ∈ reqC6.headers ∧
    HOP_BY_HOP.contains (strLower "X-Forwarded-Proto") = false ∧
    ("X-Forwarded-Proto", "https") ∉ forwardHeaders reqC6 := by decide

/-- **C6, amended.** Headers whose lower-cased name is in the hop-by-hop set
never reach the upstream-bound header set nor the client-bound response
header set; every other inbound header is copied verbatim except
`X-Forwarded-For` / `X-Forwarded-Proto` (rewritten with forwarding
metadata), and every other upstream response header is copied verbatim
except the diagnostic keys `X-LB-Backend` / `X-LB-Duration-ms`. -/
theorem claim_C6 (req : Request) (uh : Headers) (bname : String) (durMs : Nat) :
    (∀ p ∈ forwardHeaders req, HOP_BY_HOP.contains (strLower p.1) = false) ∧
    (∀ p ∈ respOutHeaders uh bname durMs,
      HOP_BY_HOP.contains (strLower p.1) = false) ∧
    (∀ k v, (k, v) ∈ req.headers → HOP_BY_HOP.contains (strLower k) = false →
      k ≠ "X-Forwarded-For" → k ≠ "X-Forwarded-Proto" →
      (k, v) ∈ forwardHeaders req) ∧
    (∀ k v, (k, v) ∈ uh → HOP_BY_HOP.contains (strLower k) = false →
      strLower k ≠ "x-lb-backend" → strLower k ≠ "x-lb-duration-ms" →
      (k, v) ∈ respOutHeaders uh bname durMs) := by
  refine ⟨?_, ?_, ?_, ?_⟩
  · intro p hp
    unfold forwardHeaders at hp
    rcases mem_of_mem_dictSet _ _ _ _ hp with h1 | h1
    · rcases mem_of_mem_dictSet _ _ _ _ h1 with h2 | h2
      · exact ((mem_stripHopByHop _ _).mp h2).2
      · rw [h2]
        decide
    · rw [h1]
      decide
  · intro p hp
    unfold respOutHeaders at hp
    rcases mem_of_mem_dictSetCI _ _ _ _ hp with h1 | h1
    · rcases mem_of_mem_dictSetCI _ _ _ _ h1 with h2 | h2
      · exact ((mem_stripHopByHop _ _).mp h2).2
      · rw [h2]
        show HOP_BY_HOP.contains (strLower "X-LB-Backend") = false
        decide
    · rw [h1]
      show HOP_BY_HOP.contains (strLower "X-LB-Duration-ms") = false
      decide
  · intro k v hmem hhop hxff hxfp
    unfold forwardHeaders
    refine mem_dictSet_of_ne _ _ _ _ _ ?_ hxfp
    exact mem_dictSet_of_ne _ _ _ _ _ ((mem_stripHopByHop _ _).mpr ⟨hmem, hhop⟩) hxff
  · intro k v hmem hhop hlb hdur
    unfold respOutHeaders
    refine mem_dictSetCI_of_ne _ _ _ _ _ ?_ (by intro he; exact hdur (by rw [he]; rfl))
    exact mem_dictSetCI_of_ne _ _ _ _ _ ((mem_stripHopByHop _ _).mpr ⟨hmem, hhop⟩)
      (by intro he; exact hlb (by rw [he]; rfl))

/-- Witness for C6: the `Host` header of a concrete request survives
forwarding, and a `Connection` header never appears after stripping. -/
theorem claim_C6_witness :
    (∀ p ∈ forwardHeaders reqC6, HOP_BY_HOP.contains (strLower p.1) = false) ∧
    ("Host", "example.com") ∈
      forwardHeaders ⟨[], [("Host", "example.com")], "1.2.3.4", "http", "GET", "/", ""⟩ :=
  ⟨(claim_C6 reqC6 [] "s1" 0).1,
   (claim_C6 ⟨[], [("Host", "example.com")], "1.2.3.4", "http", "GET", "/", ""⟩ [] "s1" 0).2.2.1
     "Host" "example.com" (by decide) (by decide) (by decide) (by decide)⟩

/-! ### C7: X-Forwarded-For handling -/

/-- **C7, counterexample.** `reqC7` carries an `X-Forwarded-For` header
(with empty value).  The claim then requires the forwarded value
`"" ++ ", " ++ ip = ", 1.2.3.4"`, but Python's truthiness test on line 79
treats the empty value as absent and the proxy forwards just the caller's
IP. -/
theorem claim_C7_counterexample :
    dictGet reqC7.headers "X-Forwarded-For" = some "" ∧
    dictGet (forwardHeaders reqC7) "X-Forwarded-For" = some "1.2.3.4" ∧
    ("1.2.3.4" : String) ≠ "" ++ ", " ++ "1.2.3.4" := by decide

/-- **C7, amended.** The forwarded `X-Forwarded-For` equals the caller's IP
when the inbound request carried no `X-Forwarded-For` header *or carried one
with an empty value*, and equals the inbound value followed by `", "` and
the caller's IP when a non-empty one was present; a non-empty prior value is
never replaced. -/
theorem claim_C7 (req : Request) :
    (dictGet req.headers "X-Forwarded-For" = none →
      dictGet (forwardHeaders req) "X-Forwarded-For" = some req.clientIp) ∧
    (dictGet req.headers "X-Forwarded-For" = some "" →
      dictGet (forwardHeaders req) "X-Forwarded-For" = some req.clientIp) ∧
    (∀ v, dictGet req.headers "X-Forwarded-For" = some v → v ≠ "" →
      dictGet (forwardHeaders req) "X-Forwarded-For" =
        some (v ++ ", " ++ req.clientIp)) := by
  have hbase : dictGet (stripHopByHop req.headers) "X-Forwarded-For" =
      dictGet req.headers "X-Forwarded-For" :=
    dictGet_stripHopByHop req.headers "X-Forwarded-For" (by decide)
  have hget : ∀ w : String,
      dictGet (dictSet (dictSet (stripHopByHop req.headers) "X-Forwarded-For" w)
        "X-Forwarded-Proto" req.scheme) "X-Forwarded-For" = some w := by
    intro w
    rw [dictGet_dictSet_ne _ _ _ _ (by decide), dictGet_dictSet_self]
  refine ⟨?_, ?_, ?_⟩
  · intro h
    simp only [forwardHeaders]
    rw [hbase, h]
    exact hget req.clientIp
  · intro h
    simp only [forwardHeaders]
    rw [hbase, h]
    simpa using hget req.clientIp
  · intro v h hv
    simp only [forwardHeaders]
    rw [hbase, h]
    simpa [hv] using hget (v ++ ", " ++ req.clientIp)

/-- Witness for C7: a request with a prior non-empty `X-Forwarded-For` gets
the caller appended after a comma and space. -/
theorem claim_C7_witness :
    dictGet (forwardHeaders
      ⟨[], [("X-Forwarded-For", "9.9.9.9")], "1.2.3.4", "http", "GET", "/", ""⟩)
      "X-Forwarded-For" = some "9.9.9.9, 1.2.3.4" :=
  (claim_C7 ⟨[], [("X-Forwarded-For", "9.9.9.9")], "1.2.3.4", "http", "GET", "/", ""⟩).2.2
    "9.9.9.9" (by decide) (by decide)

/-! ### C1: the active-counter invariant -/

theorem activeFold_append (l : List SchedEv) (e : SchedEv) :
    activeFold (l ++ [e]) =
      if e.1 then activeFold l + 1 else activeFold l - 1 := by
  unfold activeFold
  rw [List.foldl_append]
  rfl

/-- The ordering clause of `WFSched` holds for every prefix length. -/
theorem WFSched_ord (n : Nat) (s : List SchedEv) (hwf : WFSched n s) :
    ∀ r k, (false, r) ∈ s.take k → (true, r) ∈ s.take k := by
  intro r k h
  have hmem_s : (false, r) ∈ s := List.mem_of_mem_take h
  have hr : r < n := hwf.1 _ hmem_s
  by_cases hk : k ≤ s.length
  · exact hwf.2.2 r hr k hk h
  · rw [List.take_of_length_le (by omega)] at h ⊢
    have := hwf.2.2 r hr s.length (Nat.le_refl _)
    rw [List.take_length] at this
    exact this h

/-- An event occurring at position `k` whose total multiplicity is one does
not occur among the first `k` events. -/
theorem not_mem_take_of_count_one (s : List SchedEv) (k : Nat) (hk : k < s.length)
    (hcount : s.count s[k] = 1) : s[k] ∉ s.take k := by
  intro hmem
  have hsplit : s.take k ++ s.drop k = s := List.take_append_drop k s
  have hadd : (s.take k).count s[k] + (s.drop k).count s[k] = s.count s[k] := by
    rw [← List.count_append, hsplit]
  have hdropc : 0 < (s.drop k).count s[k] := by
    apply List.count_pos_iff.mpr
    rw [List.drop_eq_getElem_cons hk]
    exact List.mem_cons_self _ _
  have htakec : 0 < (s.take k).count s[k] := List.count_pos_iff.mpr hmem
  omega

/-- The running active count after `k` scheduled steps is the number of
requests whose increment has been scheduled minus the number whose decrement
has been scheduled. -/
theorem activeFold_take (n : Nat) (s : List SchedEv) (hwf : WFSched n s) :
    ∀ k, activeFold (s.take k) =
      (((Finset.range n).filter (fun r => (true, r) ∈ s.take k)).card : Int) -
      (((Finset.range n).filter (fun r => (false, r) ∈ s.take k)).card : Int) := by
  intro k
  induction k with
  | zero => simp [activeFold]
  | succ k ih =>
    by_cases hk : k < s.length
    · have htake : s.take (k + 1) = s.take k ++ [s[k]] := by
        rw [List.take_succ, List.getElem?_eq_getElem hk]
        rfl
      have hrlt : (s[k]).2 < n := hwf.1 _ (List.getElem_mem hk)
      have hcount1 : s.count s[k] = 1 := by
        rcases hsk : s[k] with ⟨b, r⟩
        have hr : r < n := by rw [hsk] at hrlt; exact hrlt
        cases b
        · exact (hwf.2.1 r hr).2
        · exact (hwf.2.1 r hr).1
      have hnot : s[k] ∉ s.take k := not_mem_take_of_count_one s k hk hcount1
      rcases hsk : s[k] with ⟨b, r⟩
      rw [hsk] at htake hnot
      have hr : r < n := by rw [hsk] at hrlt; exact hrlt
      rw [htake]
      cases b
      · have hfold : activeFold (s.take k ++ [((false : Bool), r)]) =
            activeFold (s.take k) - 1 := by
          rw [activeFold_append]
          rfl
        have hI : (Finset.range n).filter
            (fun r' => (true, r') ∈ s.take k ++ [(false, r)]) =
            (Finset.range n).filter (fun r' => (true, r') ∈ s.take k) := by
          apply Finset.filter_congr
          intro r' _
          simp [List.mem_append]
        have hD : (Finset.range n).filter
            (fun r' => (false, r') ∈ s.take k ++ [(false, r)]) =
            insert r ((Finset.range n).filter (fun r' => (false, r') ∈ s.take k)) := by
          ext r'
          simp only [Finset.mem_filter, Finset.mem_insert, Finset.mem_range,
            List.mem_append, List.mem_singleton, Prod.mk.injEq, true_and]
          constructor
          · rintro ⟨hrn, hin | rfl⟩
            · exact Or.inr ⟨hrn, hin⟩
            · exact Or.inl rfl
          · rintro (rfl | ⟨hrn, hin⟩)
            · exact ⟨hr, Or.inr rfl⟩
            · exact ⟨hrn, Or.inl hin⟩
        have hnotD : r ∉ (Finset.range n).filter
            (fun r' => (false, r') ∈ s.take k) := by
          simp only [Finset.mem_filter, Finset.mem_range]
          rintro ⟨-, hin⟩
          exact hnot hin
        rw [hfold, hI, hD, Finset.card_insert_of_not_mem hnotD, ih]
        push_cast
        ring
      · have hfold : activeFold (s.take k ++ [((true : Bool), r)]) =
            activeFold (s.take k) + 1 := by
          rw [activeFold_append]
          rfl
        have hD : (Finset.range n).filter
            (fun r' => (false, r') ∈ s.take k ++ [(true, r)]) =
            (Finset.range n).filter (fun r' => (false, r') ∈ s.take k) := by
          apply Finset.filter_congr
          intro r' _
          simp [List.mem_append]
        have hI : (Finset.range n).filter
            (fun r' => (true, r') ∈ s.take k ++ [(true, r)]) =
            insert r ((Finset.range n).filter (fun r' => (true, r') ∈ s.take k)) := by
          ext r'
          simp only [Finset.mem_filter, Finset.mem_insert, Finset.mem_range,
            List.mem_append, List.mem_singleton, Prod.mk.injEq, true_and]
          constructor
          · rintro ⟨hrn, hin | rfl⟩
            · exact Or.inr ⟨hrn, hin⟩
            · exact Or.inl rfl
          · rintro (rfl | ⟨hrn, hin⟩)
            · exact ⟨hr, Or.inr rfl⟩
            · exact ⟨hrn, Or.inl hin⟩
        have hnotI : r ∉ (Finset.range n).filter
            (fun r' => (true, r') ∈ s.take k) := by
          simp only [Finset.mem_filter, Finset.mem_range]
          rintro ⟨-, hin⟩
          exact hnot hin
        rw [hfold, hI, hD, Finset.card_insert_of_not_mem hnotI, ih]
        push_cast
        ring
    · have hlen : s.length ≤ k := Nat.le_of_not_lt hk
      rw [List.take_of_length_le (by omega), ← List.take_of_length_le hlen]
      exact ih

/-- At every prefix of a well-formed schedule, at most as many decrements as
increments have been scheduled. -/
theorem WFSched_nonneg (n : Nat) (s : List SchedEv) (hwf : WFSched n s) :
    ∀ k, 0 ≤ activeFold (s.take k) := by
  intro k
  rw [activeFold_take n s hwf k]
  have hsub : (Finset.range n).filter (fun r => (false, r) ∈ s.take k) ⊆
      (Finset.range n).filter (fun r => (true, r) ∈ s.take k) := by
    intro r hrmem
    rw [Finset.mem_filter] at hrmem ⊢
    exact ⟨hrmem.1, WFSched_ord n s hwf r k hrmem.2⟩
  have := Finset.card_le_card hsub
  omega

/-- Once every request of a well-formed schedule has completed, the active
count is back to zero. -/
theorem WFSched_final (n : Nat) (s : List SchedEv) (hwf : WFSched n s) :
    activeFold s = 0 := by
  have hful : ∀ b : Bool, (Finset.range n).filter (fun r => (b, r) ∈ s) =
      Finset.range n := by
    intro b
    apply Finset.filter_true_of_mem
    intro r hrmem
    rw [Finset.mem_range] at hrmem
    apply List.count_pos_iff.mp
    cases b
    · rw [(hwf.2.1 r hrmem).2]
      exact Nat.one_pos
    · rw [(hwf.2.1 r hrmem).1]
      exact Nat.one_pos
  have h := activeFold_take n s hwf s.length
  rw [List.take_length] at h
  rw [h, hful true, hful false]
  ring

/-- **C1.** Per request: whenever a backend is selected, the trace both on
success and on failure is `incrActive` first (before the upstream contact),
then the outcome record, then exactly one `decrActive` last — so the
increment happens before forwarding and the decrement exactly once before
the response is returned — and the net effect on every backend's active
counter is zero.  Consequently, for any interleaved schedule of concurrent
requests against one backend (each contributing its increment before its
decrement, once each), the active count is `≥ 0` after every prefix and `0`
once all requests have completed. -/
theorem claim_C1 :
    (∀ (cfg : Config) (st : LBState) (req : Request) (u : UpstreamResult)
      (d : Nat) (i : Nat), (proxy cfg st req u d).sel = some i →
      ((proxy cfg st req u d).trace =
          [.incrActive i, .forward i, .recordOk i, .decrActive i] ∨
        (proxy cfg st req u d).trace =
          [.incrActive i, .forward i, .recordFail i, .decrActive i]) ∧
      ∀ j, (backendAt (proxy cfg st req u d).st j).active =
        (backendAt st j).active) ∧
    (∀ (n : Nat) (s : List SchedEv), WFSched n s →
      (∀ k, 0 ≤ activeFold (s.take k)) ∧ activeFold s = 0) := by
  constructor
  · intro cfg st req u d i hsel
    rw [proxy_sel_eq] at hsel
    rcases hp : pickFor cfg st req with ⟨sel, st1⟩
    have hsel1 : sel = some i := by rw [hp] at hsel; exact hsel
    subst hsel1
    have hmem : i ∈ healthyIdxs st := pickFor_sel_mem cfg st req i (by rw [hp])
    have hb : st1.backends = st.backends := by
      have := pickFor_backends cfg st req
      rw [hp] at this
      exact this
    have hlen : i < st1.backends.length := by
      rw [hb]
      exact mem_healthyIdxs_lt st i hmem
    have hAt : ∀ j, backendAt st1 j = backendAt st j :=
      fun j => backendAt_congr st1 st j hb
    rw [proxy_eq_forward cfg st req u d i st1 hp]
    constructor
    · cases u with
      | success s hs p => exact Or.inl rfl
      | failure => exact Or.inr rfl
    · intro j
      by_cases hji : j = i
      · subst hji
        cases u with
        | success s hs p =>
          show (backendAt (modifyBackend (modifyBackend (modifyBackend st1 j
              incrActiveF) j recordOkF) j decrActiveF) j).active =
            (backendAt st j).active
          rw [backendAt_chain3 st1 j incrActiveF recordOkF decrActiveF hlen, hAt j]
          simp [incrActiveF, recordOkF, decrActiveF]
        | failure =>
          show (backendAt (modifyBackend (modifyBackend (modifyBackend st1 j
              incrActiveF) j recordFailF) j decrActiveF) j).active =
            (backendAt st j).active
          rw [backendAt_chain3 st1 j incrActiveF recordFailF decrActiveF hlen, hAt j]
          simp [incrActiveF, recordFailF, decrActiveF]
      · cases u with
        | success s hs p =>
          show (backendAt (modifyBackend (modifyBackend (modifyBackend st1 i
              incrActiveF) i recordOkF) i decrActiveF) j).active =
            (backendAt st j).active
          rw [backendAt_chain3_ne st1 i j incrActiveF recordOkF decrActiveF hji,
            hAt j]
        | failure =>
          show (backendAt (modifyBackend (modifyBackend (modifyBackend st1 i
              incrActiveF) i recordFailF) i decrActiveF) j).active =
            (backendAt st j).active
          rw [backendAt_chain3_ne st1 i j incrActiveF recordFailF decrActiveF hji,
            hAt j]
  · intro n s hwf
    exact ⟨WFSched_nonneg n s hwf, WFSched_final n s hwf⟩

/-- Witness for C1: a concrete failing request against the fresh state emits
the increment-forward-record-decrement trace on backend 0, and the
two-request interleaving `incr 0, incr 1, decr 1, decr 0` stays nonnegative
and ends at zero. -/
theorem claim_C1_witness :
    ((proxy defaultConfig initState reqPlain .failure 0).trace =
        [.incrActive 0, .forward 0, .recordOk 0, .decrActive 0] ∨
      (proxy defaultConfig initState reqPlain .failure 0).trace =
        [.incrActive 0, .forward 0, .recordFail 0, .decrActive 0]) ∧
    activeFold ([((true : Bool), 0), (true, 1), (false, 1), (false, 0)] :
      List SchedEv) = 0 :=
  ⟨(claim_C1.1 defaultConfig initState reqPlain .failure 0 0 (by decide)).1,
   (claim_C1.2 2 [(true, 0), (true, 1), (false, 1), (false, 0)]
     (by unfold WFSched; decide)).2⟩

end LB
